import Mathlib

/-!
# Verification of the perceptron implementation

Shallow embedding of `src/posts/perceptron-blog-post/perceptron.py`
(class `Perceptron` with methods `fit`, `score`, `predict`, `validation`)
over exact rational arithmetic.  Matrices are lists of row vectors,
vectors are lists of rationals.  The numpy primitives the code uses
(`np.sign`, `np.dot`, `np.append` of a ones column, float floor
division `//`) are embedded below; the stochastic choices of `fit`
(the random initial weight vector and the randomly drawn indices) are
passed in explicitly, one drawn index per training step.
-/

namespace PerceptronModel

/-- `np.sign` as numpy defines it: `-1` for negatives, `0` for zero,
`+1` for positives. -/
def npSign (v : ℚ) : ℚ :=
  if v < 0 then -1 else if v = 0 then 0 else 1

/-- The sign function as the spec describes it: `-1` for negatives and
`+1` for every non-negative value, including zero.  Stated from the
spec's words, for comparison with `npSign`. -/
def specSign (v : ℚ) : ℚ :=
  if v < 0 then -1 else 1

/-- Dot product of two vectors (`np.dot` on two 1-d arrays of equal
length). -/
def dot (v u : List ℚ) : ℚ :=
  (List.zipWith (· * ·) v u).sum

/-- Elementwise vector addition. -/
def vecAdd (v u : List ℚ) : List ℚ :=
  List.zipWith (· + ·) v u

/-- Scalar times vector. -/
def scalarMul (c : ℚ) (v : List ℚ) : List ℚ :=
  v.map (fun x => c * x)

/-- `np.append(X, np.ones((X.shape[0], 1)), 1)`: append a constant `1`
column to the matrix. -/
def augment (X : List (List ℚ)) : List (List ℚ) :=
  X.map (fun row => row ++ [1])

/-- Shifted labels `y_ = 2*y - 1`. -/
def shiftLabels (y : List ℚ) : List ℚ :=
  y.map (fun v => 2 * v - 1)

/-- `validation` applied to a single row: `np.sign(np.dot(x, w))`. -/
def validationRow (w x : List ℚ) : ℚ :=
  npSign (dot x w)

/-- `validation` applied to a matrix: `np.sign(np.dot(X, w))`
row by row. -/
def validationMat (w : List ℚ) (X : List (List ℚ)) : List ℚ :=
  X.map (fun x => validationRow w x)

/-- `score(X, y)` for a given weight vector `w`:
`np.dot(validation(X_), 2*y-1) / X_.shape[0]` where `X_` is `X` with
a ones column appended. -/
def scoreW (w : List ℚ) (X : List (List ℚ)) (y : List ℚ) : ℚ :=
  dot (validationMat w (augment X)) (shiftLabels y) / ((augment X).length : ℚ)

/-- One training step of `fit` at drawn index `i`:
`w + np.where(y_[i] * validation(X_[i]) < 0, 1, 0) * y_[i] * X_[i]`. -/
def fitStep (X_ : List (List ℚ)) (y_ : List ℚ) (w : List ℚ) (i : ℕ) : List ℚ :=
  let xi := X_.getD i []
  let yi := y_.getD i 0
  vecAdd w (scalarMul ((if yi * validationRow w xi < 0 then 1 else 0) * yi) xi)

/-- The training loop of `fit`: for each drawn index, update the weight
vector and append `score(X, y)` (computed with the updated weights) to
the history. -/
def fitLoop (X_ : List (List ℚ)) (y : List ℚ) (X : List (List ℚ)) :
    List ℚ → List ℚ → List ℕ → List ℚ × List ℚ
  | w, history, [] => (w, history)
  | w, history, i :: rest =>
    let w' := fitStep X_ (shiftLabels y) w i
    fitLoop X_ y X w' (history ++ [scoreW w' X y]) rest

/-- Weight vector and history produced by `fit(X, y)` from initial
random weights `w0` and drawn indices `idx` (one per step, so
`idx.length = max_steps`). -/
def fitResult (X : List (List ℚ)) (y : List ℚ) (w0 : List ℚ) (idx : List ℕ) :
    List ℚ × List ℚ :=
  fitLoop (augment X) y X w0 [] idx

/-- `(np.sign(np.dot(x, w)) + 1) // 2` for one row of `predict`'s
input: float floor division, embedded as the rational floor. -/
def predictRow (w x : List ℚ) : ℚ :=
  ((⌊(npSign (dot x w) + 1) / 2⌋ : ℤ) : ℚ)

/-- Errors surfaced by the underlying numeric operations.
Modelled from the spec: numpy itself is an external collaborator not
in the repository; per the spec, a dimension mismatch in `np.dot`
"surfaces as a dimension/shape failure ... (propagated, not caught)"
and a method touching `self.w` before `fit` "surfaces as a
missing-attribute/undefined-value failure (propagated, not caught)". -/
inductive NpError where
  | shapeMismatch
  | attributeError
  deriving DecidableEq, Repr

/-- The model object: `w` and `history` are absent (`none`) until
`fit` has been called. -/
structure Perceptron where
  w : Option (List ℚ)
  history : Option (List ℚ)
  deriving Repr

/-- The constructor `__init__`: no attribute is initialized. -/
def Perceptron.init : Perceptron := ⟨none, none⟩

/-- Method `fit`: augment `X`, draw the initial weights `w0`, reset the
history, run the loop over the drawn indices `idx`, and store the
resulting weights and history on the model. -/
def Perceptron.fit (_ : Perceptron) (X : List (List ℚ)) (y : List ℚ)
    (w0 : List ℚ) (idx : List ℕ) : Perceptron :=
  ⟨some (fitResult X y w0 idx).1, some (fitResult X y w0 idx).2⟩

/-- Method `score`: fails when `self.w` is absent; otherwise the numpy
pipeline fails on a shape mismatch and returns the dot-product score
otherwise. -/
def Perceptron.score (m : Perceptron) (X : List (List ℚ)) (y : List ℚ) :
    Except NpError ℚ :=
  match m.w with
  | none => .error .attributeError
  | some w =>
    if (∀ row ∈ augment X, row.length = w.length) ∧ X.length = y.length then
      .ok (scoreW w X y)
    else
      .error .shapeMismatch

/-- Method `predict`: fails when `self.w` is absent; `X` is NOT
augmented, so `np.dot(X, w)` fails unless every row of `X` has exactly
`w.length` entries. -/
def Perceptron.predict (m : Perceptron) (X : List (List ℚ)) :
    Except NpError (List ℚ) :=
  match m.w with
  | none => .error .attributeError
  | some w =>
    if ∀ row ∈ X, row.length = w.length then
      .ok (X.map (fun x => predictRow w x))
    else
      .error .shapeMismatch

/-- The `score` formula exactly as the spec words it, with the spec's
own sign convention (`sign(0) = +1`): dot product of the
activation-sign vector over the augmented rows with the shifted
labels, divided by the number `n` of observations. -/
def scoreSpec (w : List ℚ) (X : List (List ℚ)) (y : List ℚ) : ℚ :=
  dot ((augment X).map (fun x => specSign (dot x w))) (shiftLabels y) / (X.length : ℚ)

/-- The `score` formula of the spec with the sign convention corrected
to numpy's three-valued sign. -/
def scoreSpecAmended (w : List ℚ) (X : List (List ℚ)) (y : List ℚ) : ℚ :=
  dot ((augment X).map (fun x => npSign (dot x w))) (shiftLabels y) / (X.length : ℚ)

/-- The training-step update exactly as claimed from the spec's words:
with `s` computed by the spec's sign (`sign(0) = +1`), update
`w ← w + y'_i * X~_i` when `y'_i * s < 0` and leave `w` unchanged
otherwise. -/
def specFitStep (X_ : List (List ℚ)) (y_ : List ℚ) (w : List ℚ) (i : ℕ) :
    List ℚ :=
  let xi := X_.getD i []
  let yi := y_.getD i 0
  if yi * specSign (dot xi w) < 0 then vecAdd w (scalarMul yi xi) else w

/-! ## Basic lemmas about the embedded operations -/

lemma npSign_trichotomy (v : ℚ) : npSign v = -1 ∨ npSign v = 0 ∨ npSign v = 1 := by
  unfold npSign
  split
  · exact Or.inl rfl
  · split
    · exact Or.inr (Or.inl rfl)
    · exact Or.inr (Or.inr rfl)

lemma abs_npSign_le_one (v : ℚ) : |npSign v| ≤ 1 := by
  rcases npSign_trichotomy v with h | h | h <;> rw [h] <;> norm_num

lemma shiftLabels_mem_abs {y : List ℚ} (hy : ∀ v ∈ y, v = 0 ∨ v = 1) :
    ∀ b ∈ shiftLabels y, |b| ≤ 1 := by
  intro b hb
  rcases List.mem_map.mp hb with ⟨v, hv, rfl⟩
  rcases hy v hv with rfl | rfl <;> norm_num

lemma augment_length (X : List (List ℚ)) : (augment X).length = X.length :=
  List.length_map _ _

lemma validationMat_length (w : List ℚ) (X : List (List ℚ)) :
    (validationMat w X).length = X.length :=
  List.length_map _ _

lemma shiftLabels_length (y : List ℚ) : (shiftLabels y).length = y.length :=
  List.length_map _ _

lemma abs_dot_le (v : List ℚ) :
    ∀ u : List ℚ, (∀ a ∈ v, |a| ≤ 1) → (∀ b ∈ u, |b| ≤ 1) →
      |dot v u| ≤ ((min v.length u.length : ℕ) : ℚ) := by
  induction v with
  | nil => intro u _ _; simp [dot]
  | cons a v ih =>
    intro u hv hu
    cases u with
    | nil => simp [dot]
    | cons b u =>
      have ha : |a| ≤ 1 := hv a (List.mem_cons_self a v)
      have hb : |b| ≤ 1 := hu b (List.mem_cons_self b u)
      have hrest := ih u (fun x hx => hv x (List.mem_cons_of_mem a hx))
        (fun x hx => hu x (List.mem_cons_of_mem b hx))
      have hd : dot (a :: v) (b :: u) = a * b + dot v u := by
        simp [dot]
      have hab : |a * b| ≤ 1 := by
        calc |a * b| = |a| * |b| := abs_mul a b
        _ ≤ 1 * 1 := by
            exact mul_le_mul ha hb (abs_nonneg b) zero_le_one
        _ = 1 := by norm_num
      have h1 : |dot (a :: v) (b :: u)| ≤ |a * b| + |dot v u| := by
        rw [hd]; exact abs_add _ _
      have h2 : ((min (a :: v).length (b :: u).length : ℕ) : ℚ)
          = (min v.length u.length : ℕ) + 1 := by
        simp [Nat.succ_min_succ]
      rw [h2]
      calc |dot (a :: v) (b :: u)| ≤ |a * b| + |dot v u| := h1
      _ ≤ 1 + (min v.length u.length : ℕ) := add_le_add hab hrest
      _ = (min v.length u.length : ℕ) + 1 := by ring

lemma abs_scoreW_le_one (w : List ℚ) (X : List (List ℚ)) (y : List ℚ)
    (hn : 1 ≤ X.length) (hlen : X.length = y.length)
    (hy : ∀ v ∈ y, v = 0 ∨ v = 1) : |scoreW w X y| ≤ 1 := by
  have hv : ∀ a ∈ validationMat w (augment X), |a| ≤ 1 := by
    intro a ha
    rcases List.mem_map.mp ha with ⟨x, _, rfl⟩
    exact abs_npSign_le_one _
  have hdot := abs_dot_le (validationMat w (augment X)) (shiftLabels y) hv
    (shiftLabels_mem_abs hy)
  rw [validationMat_length, augment_length, shiftLabels_length, ← hlen,
    min_self] at hdot
  have hpos : (0 : ℚ) < ((augment X).length : ℚ) := by
    rw [augment_length]
    exact_mod_cast Nat.lt_of_lt_of_le Nat.zero_lt_one hn
  rw [scoreW, abs_div, abs_of_pos hpos, div_le_one hpos, augment_length]
  exact hdot

lemma scoreW_in_Icc (w : List ℚ) (X : List (List ℚ)) (y : List ℚ)
    (hn : 1 ≤ X.length) (hlen : X.length = y.length)
    (hy : ∀ v ∈ y, v = 0 ∨ v = 1) :
    -1 ≤ scoreW w X y ∧ scoreW w X y ≤ 1 :=
  abs_le.mp (abs_scoreW_le_one w X y hn hlen hy)

lemma fitLoop_history_length (X_ : List (List ℚ)) (y : List ℚ)
    (X : List (List ℚ)) :
    ∀ (idx : List ℕ) (w h : List ℚ),
      (fitLoop X_ y X w h idx).2.length = h.length + idx.length := by
  intro idx
  induction idx with
  | nil => intro w h; simp [fitLoop]
  | cons i rest ih =>
    intro w h
    rw [fitLoop, ih]
    simp
    ring

lemma fitLoop_history_mem (X_ : List (List ℚ)) (y : List ℚ)
    (X : List (List ℚ)) :
    ∀ (idx : List ℕ) (w h : List ℚ) (s : ℚ),
      s ∈ (fitLoop X_ y X w h idx).2 →
      s ∈ h ∨ ∃ w', s = scoreW w' X y := by
  intro idx
  induction idx with
  | nil => intro w h s hs; exact Or.inl hs
  | cons i rest ih =>
    intro w h s hs
    rw [fitLoop] at hs
    rcases ih _ _ s hs with hmem | hsc
    · rcases List.mem_append.mp hmem with hmem | hmem
      · exact Or.inl hmem
      · rcases List.mem_singleton.mp hmem with rfl
        exact Or.inr ⟨_, rfl⟩
    · exact Or.inr hsc

lemma vecAdd_scalarMul_zero (w : List ℚ) :
    ∀ v : List ℚ, w.length ≤ v.length →
      vecAdd w (v.map (fun x => 0 * x)) = w := by
  induction w with
  | nil => intro v _; simp [vecAdd]
  | cons a w ih =>
    intro v hv
    cases v with
    | nil => simp at hv
    | cons b v =>
      have : w.length ≤ v.length := Nat.le_of_succ_le_succ hv
      simp [vecAdd] at ih ⊢
      exact ih v this

lemma getD_map_lt (f : List ℚ → ℚ) (l : List (List ℚ)) :
    ∀ i, i < l.length → (l.map f).getD i 0 = f (l.getD i []) := by
  induction l with
  | nil => intro i h; simp at h
  | cons a l ih =>
    intro i h
    cases i with
    | zero => simp
    | succ n =>
      simp only [List.map_cons, List.getD_cons_succ]
      exact ih n (by simpa using h)

lemma predictRow_mem (w x : List ℚ) : predictRow w x = 0 ∨ predictRow w x = 1 := by
  rcases npSign_trichotomy (dot x w) with h | h | h <;>
    · rw [predictRow, h]
      norm_num [Int.floor_eq_iff]

/-! ## Claims -/

/-- C4 (counterexample): the sign function the code uses, `np.sign`,
maps zero to `0`, not to `+1` as the claim states. -/
theorem npSign_zero_ne_one : npSign 0 = 0 ∧ npSign 0 ≠ 1 := by
  norm_num [npSign]

/-- C4 (amended): the sign function used in `fit` and `score` maps
every negative value to `-1`, every positive value to `+1`, and zero
to `0`. -/
theorem npSign_characterization (v : ℚ) :
    (v < 0 → npSign v = -1) ∧ (0 < v → npSign v = 1) ∧ (v = 0 → npSign v = 0) := by
  refine ⟨fun h => ?_, fun h => ?_, fun h => ?_⟩
  · rw [npSign, if_pos h]
  · rw [npSign, if_neg (by linarith), if_neg (by linarith)]
  · rw [npSign, h, if_neg (by norm_num), if_pos rfl]

theorem npSign_characterization_witness :
    npSign (-2) = -1 ∧ npSign 3 = 1 ∧ npSign 0 = 0 :=
  ⟨(npSign_characterization (-2)).1 (by norm_num),
   (npSign_characterization 3).2.1 (by norm_num),
   (npSign_characterization 0).2.2 rfl⟩

/-- C1 (counterexample): at a training step whose activation
`w · X~_i` is exactly zero and whose shifted label is `-1`
(here `X = [[0]]`, `y = [0]`, `w = [0,0]`, `i = 0`), the code leaves
`w` unchanged, while the claimed rule (with the spec's sign, which
sends zero to `+1`) demands the update `w + y'_i * X~_i = [0,-1]`. -/
theorem fitStep_spec_counterexample :
    fitStep (augment [[0]]) (shiftLabels [0]) [0, 0] 0 = [0, 0] ∧
    specFitStep (augment [[0]]) (shiftLabels [0]) [0, 0] 0 = [0, -1] ∧
    fitStep (augment [[0]]) (shiftLabels [0]) [0, 0] 0 ≠
      specFitStep (augment [[0]]) (shiftLabels [0]) [0, 0] 0 := by
  refine ⟨?_, ?_, ?_⟩ <;>
    norm_num [fitStep, specFitStep, augment, shiftLabels, validationRow,
      specSign, npSign, dot, vecAdd, scalarMul]

/-- C1 (amended): with the signed activation computed by the
three-valued numpy sign (zero maps to `0`, so a zero activation never
triggers an update), every training step with drawn index `i` updates
`w ← w + y'_i * X~_i` exactly when `y'_i * sign(w · X~_i) < 0` and
otherwise leaves `w` exactly unchanged. -/
theorem fitStep_update_rule (X_ : List (List ℚ)) (y_ w : List ℚ) (i : ℕ)
    (hw : w.length ≤ (X_.getD i []).length) :
    fitStep X_ y_ w i =
      if y_.getD i 0 * npSign (dot (X_.getD i []) w) < 0 then
        vecAdd w (scalarMul (y_.getD i 0) (X_.getD i []))
      else
        w := by
  simp only [fitStep, validationRow]
  split
  · rw [one_mul]
  · rw [zero_mul]
    exact vecAdd_scalarMul_zero w _ hw

theorem fitStep_update_rule_witness :
    fitStep (augment [[0]]) (shiftLabels [1]) [0, 0] 0 =
      if (shiftLabels [1]).getD 0 0 *
          npSign (dot ((augment [[0]]).getD 0 []) [0, 0]) < 0 then
        vecAdd [0, 0] (scalarMul ((shiftLabels [1]).getD 0 0)
          ((augment [[0]]).getD 0 []))
      else
        [0, 0] :=
  fitStep_update_rule (augment [[0]]) (shiftLabels [1]) [0, 0] 0
    (by norm_num [augment])

/-- C3 (counterexample): a row whose dot product with `w` is exactly
zero is mapped by `predict` to the label `0`, not `1`:
`(np.sign(0) + 1) // 2 = (0 + 1) // 2 = 0`. -/
theorem predict_zero_dot_counterexample :
    dot [1, 1] [0, 0] = 0 ∧
    Perceptron.predict ⟨some [0, 0], some []⟩ [[1, 1]] = .ok [0] ∧
    predictRow [0, 0] [1, 1] ≠ 1 := by
  refine ⟨?_, ?_, ?_⟩ <;>
    norm_num [Perceptron.predict, predictRow, npSign, dot, Int.floor_eq_iff]

/-- C3 (amended): for every fitted model and every row of the matrix
passed to `predict`, the output element is `1` when the dot product of
the row with `w` is positive and `0` when it is negative, with a zero
dot product mapped to the label `0` (numpy's sign sends zero to `0`,
and `(0 + 1) // 2 = 0`). -/
theorem predict_sign_rule (w h : List ℚ) (X : List (List ℚ)) (out : List ℚ)
    (hok : Perceptron.predict ⟨some w, some h⟩ X = .ok out)
    (i : ℕ) (hi : i < X.length) :
    (0 < dot (X.getD i []) w → out.getD i 0 = 1) ∧
    (dot (X.getD i []) w < 0 → out.getD i 0 = 0) ∧
    (dot (X.getD i []) w = 0 → out.getD i 0 = 0) := by
  simp only [Perceptron.predict] at hok
  split at hok
  · injection hok with hout
    subst hout
    rw [getD_map_lt _ X i hi]
    refine ⟨fun hpos => ?_, fun hneg => ?_, fun hzero => ?_⟩
    · rw [predictRow, (npSign_characterization _).2.1 hpos]
      norm_num
    · rw [predictRow, (npSign_characterization _).1 hneg]
      norm_num
    · rw [predictRow, (npSign_characterization _).2.2 hzero]
      norm_num [Int.floor_eq_iff]
  · exact Except.noConfusion hok

theorem predict_sign_rule_witness : ([(1 : ℚ)].getD 0 0) = 1 :=
  (predict_sign_rule [1] [] [[2]] [1]
    (by norm_num [Perceptron.predict, predictRow, npSign, dot])
    0 (by norm_num)).1 (by norm_num [dot])

/-- C2 (counterexample): `score` can return a negative value, so its
results do not lie in `[0,1]`: with `w = [0,1]`, `X = [[0]]`,
`y = [0]` the method returns `-1`. -/
theorem score_negative_counterexample :
    Perceptron.score ⟨some [0, 1], some []⟩ [[0]] [0] = .ok (-1) ∧
    ¬ (0 ≤ scoreW [0, 1] [[0]] [0] ∧ scoreW [0, 1] [[0]] [0] ≤ 1) := by
  constructor <;>
    norm_num [Perceptron.score, scoreW, validationMat, validationRow, npSign,
      dot, shiftLabels, augment]

/-- C2 (amended): every value returned by `score(X, y)` on at least one
observation with labels in `{0,1}` is a real number in the interval
`[-1,1]`, and hence every element appended to `history` during `fit`
lies in `[-1,1]`. -/
theorem score_range_with_history (w : List ℚ) (X : List (List ℚ)) (y : List ℚ)
    (hn : 1 ≤ X.length) (hlen : X.length = y.length)
    (hy : ∀ v ∈ y, v = 0 ∨ v = 1) :
    (-1 ≤ scoreW w X y ∧ scoreW w X y ≤ 1) ∧
    ∀ (w0 : List ℚ) (idx : List ℕ) (s : ℚ),
      s ∈ (fitResult X y w0 idx).2 → -1 ≤ s ∧ s ≤ 1 := by
  refine ⟨scoreW_in_Icc w X y hn hlen hy, fun w0 idx s hs => ?_⟩
  rcases fitLoop_history_mem (augment X) y X idx w0 [] s hs with hmem | ⟨w', rfl⟩
  · simp at hmem
  · exact scoreW_in_Icc w' X y hn hlen hy

theorem score_range_with_history_witness :
    -1 ≤ scoreW [0, 1] [[0]] [0] ∧ scoreW [0, 1] [[0]] [0] ≤ 1 :=
  (score_range_with_history [0, 1] [[0]] [0] (by norm_num) rfl
    (by norm_num)).1

/-- C10: for every weight vector, every `X` with at least one row and
every `y` of matching length with entries in `{0,1}`, `score(X, y)`
lies in `[-1,1]`, every element `fit` appends to `history` lies in
`[-1,1]`, and the value can indeed be negative (`-1` is attained). -/
theorem score_interval_and_negative :
    (∀ (w : List ℚ) (X : List (List ℚ)) (y : List ℚ),
      1 ≤ X.length → X.length = y.length → (∀ v ∈ y, v = 0 ∨ v = 1) →
      (-1 ≤ scoreW w X y ∧ scoreW w X y ≤ 1) ∧
      ∀ (w0 : List ℚ) (idx : List ℕ) (s : ℚ),
        s ∈ (fitResult X y w0 idx).2 → -1 ≤ s ∧ s ≤ 1) ∧
    scoreW [0, 1] [[0]] [0] < 0 := by
  constructor
  · intro w X y hn hlen hy
    refine ⟨scoreW_in_Icc w X y hn hlen hy, fun w0 idx s hs => ?_⟩
    rcases fitLoop_history_mem (augment X) y X idx w0 [] s hs with hmem | ⟨w', rfl⟩
    · simp at hmem
    · exact scoreW_in_Icc w' X y hn hlen hy
  · norm_num [scoreW, validationMat, validationRow, npSign, dot, shiftLabels,
      augment]

theorem score_interval_and_negative_witness :
    -1 ≤ scoreW [1, 1] [[1]] [1] ∧ scoreW [1, 1] [[1]] [1] ≤ 1 :=
  (score_interval_and_negative.1 [1, 1] [[1]] [1] (by norm_num) rfl
    (by norm_num)).1

/-- C5 (counterexample): `score` does not return the spec's literal
formula when it is read with the spec's sign convention
(`sign(0) = +1`): on a row with zero activation the code's value and
the spec's formula differ (`0` versus `1` here). -/
theorem score_spec_sign_counterexample :
    scoreW [1, -1] [[1]] [1] = 0 ∧
    scoreSpec [1, -1] [[1]] [1] = 1 ∧
    scoreW [1, -1] [[1]] [1] ≠ scoreSpec [1, -1] [[1]] [1] := by
  refine ⟨?_, ?_, ?_⟩ <;>
    norm_num [scoreW, scoreSpec, validationMat, validationRow, npSign,
      specSign, dot, shiftLabels, augment]

/-- C5 (amended): with the sign convention corrected to numpy's
three-valued sign (zero maps to `0`), `score(X, y)` returns exactly
the dot product of the activation-sign vector `sign(X~ · w)` with the
shifted labels `2y - 1`, divided by the number of observations, where
`X~` is `X` with a constant `1` column appended. -/
theorem score_eq_spec_formula (w : List ℚ) (X : List (List ℚ)) (y : List ℚ) :
    scoreW w X y = scoreSpecAmended w X y := by
  rw [scoreW, scoreSpecAmended, augment_length]
  rfl

/-- C6: `predict` does not append a `1`s column to `X`: when every row
of `X` has exactly `w.length` entries it returns the row-by-row dot
products against `w` directly, and when some row's length differs
from `w.length` it fails with a shape error (numpy's `np.dot`
dimension failure, modelled from the spec) rather than silently
truncating or padding. -/
theorem predict_no_augment (w h : List ℚ) (X : List (List ℚ)) :
    ((∀ row ∈ X, row.length = w.length) →
      Perceptron.predict ⟨some w, some h⟩ X =
        .ok (X.map (fun x => predictRow w x))) ∧
    ((∃ row ∈ X, row.length ≠ w.length) →
      Perceptron.predict ⟨some w, some h⟩ X = .error .shapeMismatch) := by
  constructor
  · intro hall
    simp only [Perceptron.predict]
    rw [if_pos hall]
  · rintro ⟨row, hrow, hne⟩
    simp only [Perceptron.predict]
    rw [if_neg (fun hall => hne (hall row hrow))]

theorem predict_no_augment_witness :
    Perceptron.predict ⟨some [1, 1, 1], some []⟩ [[1, 2]] =
      .error .shapeMismatch :=
  (predict_no_augment [1, 1, 1] [] [[1, 2]]).2
    ⟨[1, 2], List.mem_singleton.mpr rfl, by norm_num⟩

/-- C7: `fit` runs exactly one training step per drawn index (so
`max_steps` iterations in all), with no early exit, appending exactly
one score to the history per step: the stored history has length
equal to the number of drawn indices, and with zero steps the stored
history is empty. -/
theorem fit_history_one_per_step (m : Perceptron) (X : List (List ℚ))
    (y w0 : List ℚ) (idx : List ℕ) :
    (Perceptron.fit m X y w0 idx).history = some (fitResult X y w0 idx).2 ∧
    (fitResult X y w0 idx).2.length = idx.length ∧
    (Perceptron.fit m X y w0 []).history = some [] := by
  refine ⟨rfl, ?_, rfl⟩
  rw [fitResult, fitLoop_history_length]
  simp

/-- C8: calling `score` or `predict` on a freshly constructed model on
which `fit` has never been called fails with the missing-attribute
failure (`self.w` does not exist), propagated to the caller. -/
theorem unfitted_model_errors (X : List (List ℚ)) (y : List ℚ) :
    Perceptron.init.score X y = .error .attributeError ∧
    Perceptron.init.predict X = .error .attributeError :=
  ⟨rfl, rfl⟩

/-- C9: whenever `predict` succeeds on a fitted model, every element of
the returned vector is `0` or `1` — including elements coming from
rows whose dot product with `w` is exactly zero, which yield `0`. -/
theorem predict_output_binary (w : List ℚ) (hist : Option (List ℚ))
    (X : List (List ℚ)) (out : List ℚ)
    (hok : Perceptron.predict ⟨some w, hist⟩ X = .ok out) :
    ∀ v ∈ out, v = 0 ∨ v = 1 := by
  simp only [Perceptron.predict] at hok
  split at hok
  · injection hok with hout
    subst hout
    intro v hv
    rcases List.mem_map.mp hv with ⟨x, _, rfl⟩
    exact predictRow_mem w x
  · exact Except.noConfusion hok

theorem predict_output_binary_witness : (1 : ℚ) = 0 ∨ (1 : ℚ) = 1 :=
  predict_output_binary [1] none [[2]] [1]
    (by norm_num [Perceptron.predict, predictRow, npSign, dot])
    1 (List.mem_singleton.mpr rfl)

end PerceptronModel
